import Mathlib

/-!
Shallow embedding of the core of the Puerto Rico elections scraper
(src/scraper/src/schema.py and src/scraper/src/cee_scraper.py).

Python strings are modelled as `List Char` (ASCII fragment plus the accented
characters that appear in the keyword tables).  Machine integers are `Nat`
(all quantities involved are non-negative counts or HTTP status codes), and
percentages are exact rationals.  Fallible constructors (dataclass
`__post_init__` validation, which raises `ValueError`) are modelled with
`Except (List Char)` carrying the Python error message.
-/

namespace PRElections

/-! ## Character helpers (the ASCII fragment of the Python string methods) -/

/-- Lowercasing as performed by `str.lower` on the characters this code
processes: ASCII uppercase letters, plus the accented uppercase E used by the
referendum keyword. -/
def pyToLower (c : Char) : Char :=
  if 'A' ≤ c ∧ c ≤ 'Z' then Char.ofNat (c.toNat + 32)
  else if c = 'É' then 'é'
  else c

def lowerList (s : List Char) : List Char := s.map pyToLower

/-- Python whitespace (the characters matched by `str.strip` and `\s`). -/
def pyIsSpace (c : Char) : Bool :=
  c = ' ' || c = '\t' || c = '\n' || c = '\r' || c = Char.ofNat 11 || c = Char.ofNat 12

def isAsciiDigit (c : Char) : Bool := '0' ≤ c && c ≤ '9'

/-- Word characters of the regex class `\w` (ASCII fragment). -/
def isWordChar (c : Char) : Bool :=
  ('a' ≤ c && c ≤ 'z') || ('A' ≤ c && c ≤ 'Z') || isAsciiDigit c || c = '_'

/-- Numeric value of a digit string, as computed by Python `int`. -/
def digitsVal (s : List Char) : Nat :=
  s.foldl (fun acc c => acc * 10 + (c.toNat - '0'.toNat)) 0

/-- Drop leading Python whitespace (the left half of `str.strip`). -/
def dropWs (s : List Char) : List Char := s.dropWhile pyIsSpace

/-- Remove trailing Python whitespace (the right half of `str.strip`): a
character is dropped exactly when it is whitespace and everything after it
is dropped too. -/
def stripRight : List Char → List Char
  | [] => []
  | c :: rest =>
    if pyIsSpace c ∧ stripRight rest = [] then [] else c :: stripRight rest

/-- Python `str.strip`: remove leading and trailing whitespace. -/
def pyStrip (s : List Char) : List Char := stripRight (dropWs s)

/-- Substring test: does `pat` occur contiguously inside `s`
(Python `pat in s`)? -/
def containsSub (pat : List Char) : List Char → Bool
  | [] => pat.isEmpty
  | s@(_ :: rest) => pat.isPrefixOf s || containsSub pat rest

/-! ## Dates -/

/-- A calendar date as produced by `datetime.date`. -/
structure PyDate where
  year : Nat
  month : Nat
  day : Nat
deriving DecidableEq, Repr

def isLeapYear (y : Nat) : Bool :=
  y % 4 = 0 && (y % 100 ≠ 0 || y % 400 = 0)

def daysInMonth (y m : Nat) : Nat :=
  if m = 2 then (if isLeapYear y then 29 else 28)
  else if m = 4 ∨ m = 6 ∨ m = 9 ∨ m = 11 then 30
  else 31

/-- The validation performed by the `datetime.date` constructor (and by
`strptime`): year in 1..9999, month in 1..12, day valid for the month.
Returns `none` where Python raises `ValueError`. -/
def mkValidDate (y m d : Nat) : Option PyDate :=
  if 1 ≤ y ∧ y ≤ 9999 ∧ 1 ≤ m ∧ m ≤ 12 ∧ 1 ≤ d ∧ d ≤ daysInMonth y m then
    some ⟨y, m, d⟩
  else none

/-- Decimal digits of a natural number, most significant first. -/
def natToChars (n : Nat) : List Char := Nat.toDigits 10 n

/-- Zero-pad a digit list on the left to width `w`. -/
def padZero (w : Nat) (ds : List Char) : List Char :=
  List.replicate (w - ds.length) '0' ++ ds

/-- `date.isoformat`: YYYY-MM-DD. -/
def isoformat (d : PyDate) : List Char :=
  padZero 4 (natToChars d.year) ++ '-' ::
    (padZero 2 (natToChars d.month) ++ '-' :: padZero 2 (natToChars d.day))

/-! ## schema.py : validate_municipality_code -/

/-- Python `str.isdigit` on the ASCII fragment: non-empty and all digits. -/
def pyIsDigitStr (s : List Char) : Bool := !s.isEmpty && s.all isAsciiDigit

/-- `validate_municipality_code` from schema.py: empty strings and
non-digit strings are rejected, then the integer value must be in 1..78. -/
def validate_municipality_code (code : List Char) : Bool :=
  if code.isEmpty then false
  else if !(pyIsDigitStr code) then false
  else decide (1 ≤ digitsVal code ∧ digitsVal code ≤ 78)

/-! ## schema.py : ElectoralEvent.generate_event_id -/

/-- Characters kept by the substitution `[^a-z0-9\s-] -> empty` applied to
the lowercased name. -/
def slugKeep (c : Char) : Bool :=
  ('a' ≤ c && c ≤ 'z') || isAsciiDigit c || pyIsSpace c || c = '-'

/-- The substitution `\s+ -> -`: every maximal whitespace run becomes one
hyphen.  The boolean flag records whether we are inside a run. -/
def collapseWsAux : Bool → List Char → List Char
  | _, [] => []
  | inWs, c :: rest =>
    if pyIsSpace c then
      if inWs then collapseWsAux true rest
      else '-' :: collapseWsAux true rest
    else c :: collapseWsAux false rest

/-- `ElectoralEvent.generate_event_id` from schema.py: lowercase, delete the
characters outside `[a-z0-9\s-]`, strip, replace whitespace runs by hyphens,
then append a hyphen and the ISO date. -/
def generate_event_id (name : List Char) (event_date : PyDate) : List Char :=
  collapseWsAux false (pyStrip ((lowerList name).filter slugKeep))
    ++ '-' :: isoformat event_date

/-- Whitespace-separated words of a string (accumulator holds the current
word reversed). -/
def wordsWsAux : List Char → List Char → List (List Char)
  | cur, [] => if cur.isEmpty then [] else [cur.reverse]
  | cur, c :: rest =>
    if pyIsSpace c then
      if cur.isEmpty then wordsWsAux [] rest
      else cur.reverse :: wordsWsAux [] rest
    else wordsWsAux (c :: cur) rest

/-- Join word lists with single hyphens. -/
def hyphenJoin : List (List Char) → List Char
  | [] => []
  | [w] => w
  | w :: ws => w ++ '-' :: hyphenJoin ws

/-- Modelled from the spec sentence for event-ID derivation: lowercase the
name, strip every character that is not a-z, 0-9, whitespace or hyphen,
collapse internal whitespace runs to single hyphens and trim (equivalently:
join the whitespace-separated words with single hyphens), then append a
hyphen and the ISO-8601 date. -/
def spec_event_id (name : List Char) (event_date : PyDate) : List Char :=
  hyphenJoin (wordsWsAux [] ((lowerList name).filter slugKeep))
    ++ '-' :: isoformat event_date

/-! ## cee_scraper.py : _determine_event_type -/

/-- `CEEScraper._determine_event_type`: case-insensitive bilingual keyword
matching, checked in the source order of the if/elif chain. -/
def determine_event_type (name : List Char) : String :=
  let nl := lowerList name
  if containsSub "plebiscito".data nl || containsSub "plebiscite".data nl then
    "plebiscite"
  else if containsSub "primaria".data nl || containsSub "primary".data nl then
    "primary"
  else if containsSub "especial".data nl || containsSub "special".data nl then
    "special"
  else if containsSub "referendum".data nl || containsSub "referéndum".data nl then
    "referendum"
  else "general"

/-- The bilingual keyword table in the priority order stated by the spec. -/
def eventKeywordTable : List (List (List Char) × String) :=
  [ (["plebiscito".data, "plebiscite".data], "plebiscite"),
    (["primaria".data, "primary".data], "primary"),
    (["especial".data, "special".data], "special"),
    (["referendum".data, "referéndum".data], "referendum") ]

/-- Modelled from the spec sentence for the event-type classifier: return the
first type in the priority order plebiscite, primary, special, referendum
whose keyword set has a case-insensitive substring match in the name, and
general when none matches. -/
def spec_event_type (name : List Char) : String :=
  let nl := lowerList name
  match eventKeywordTable.find? (fun p => p.1.any (fun kw => containsSub kw nl)) with
  | some p => p.2
  | none => "general"

/-! ## cee_scraper.py : _parse_event_date

The three regex patterns are embedded as positional matchers: `re.search`
scans positions left to right and at each position applies the pattern with
greedy backtracking, which for these patterns means trying the longer digit
group first.  Only the first (leftmost) match is handed to the date
validation, and a validation failure moves on to the next pattern, exactly
as the `continue` in the source does. -/

/-- Take exactly `n` ASCII digits from the front. -/
def takeDigits : Nat → List Char → Option (List Char × List Char)
  | 0, s => some ([], s)
  | _ + 1, [] => none
  | n + 1, c :: s =>
    if isAsciiDigit c then (takeDigits n s).map (fun p => (c :: p.1, p.2))
    else none

def matchDigits (n : Nat) (s : List Char) : Option (Nat × List Char) :=
  (takeDigits n s).map (fun p => (digitsVal p.1, p.2))

/-- After the month group of `\d{1,2}/\d{1,2}/\d{4}`: a slash, the day group
(two digits, else one), a slash, four year digits. -/
def matchSlashDayYear (s : List Char) : Option (Nat × Nat) :=
  match s with
  | '/' :: s1 =>
    (do
      let (d, s2) ← matchDigits 2 s1
      match s2 with
      | '/' :: s3 => do
        let (y, _) ← matchDigits 4 s3
        pure (d, y)
      | _ => none)
    <|>
    (do
      let (d, s2) ← matchDigits 1 s1
      match s2 with
      | '/' :: s3 => do
        let (y, _) ← matchDigits 4 s3
        pure (d, y)
      | _ => none)
  | _ => none

/-- The pattern `\d{1,2}/\d{1,2}/\d{4}` applied at one position (month as
two digits first, then one). -/
def matchMDYAt (s : List Char) : Option (Nat × Nat × Nat) :=
  (do
    let (m, s1) ← matchDigits 2 s
    let (d, y) ← matchSlashDayYear s1
    pure (m, d, y))
  <|>
  (do
    let (m, s1) ← matchDigits 1 s
    let (d, y) ← matchSlashDayYear s1
    pure (m, d, y))

/-- Leftmost match of the numeric MM/DD/YYYY pattern. -/
def searchMDY : List Char → Option (Nat × Nat × Nat)
  | [] => none
  | s@(_ :: rest) => matchMDYAt s <|> searchMDY rest

/-- The pattern `(\d{4})-(\d{2})-(\d{2})` applied at one position. -/
def matchISOAt (s : List Char) : Option (Nat × Nat × Nat) := do
  let (y, s1) ← matchDigits 4 s
  match s1 with
  | '-' :: s2 => do
    let (m, s3) ← matchDigits 2 s2
    match s3 with
    | '-' :: s4 => do
      let (d, _) ← matchDigits 2 s4
      pure (y, m, d)
    | _ => none
  | _ => none

/-- Leftmost match of the ISO YYYY-MM-DD pattern. -/
def searchISO : List Char → Option (Nat × Nat × Nat)
  | [] => none
  | s@(_ :: rest) => matchISOAt s <|> searchISO rest

/-- Case-insensitive literal match, returning the remainder. -/
def matchLitCI : List Char → List Char → Option (List Char)
  | [], s => some s
  | _ :: _, [] => none
  | p :: ps, c :: s => if pyToLower c = pyToLower p then matchLitCI ps s else none

/-- The tail ` de (\d{4})` of the Spanish pattern (case-insensitive). -/
def matchDeYear (s : List Char) : Option Nat := do
  let s1 ← matchLitCI " de ".data s
  let (y, _) ← matchDigits 4 s1
  pure y

/-- Backtracking over the greedy `\w+` month group: try the whole word-char
run, then successively shorter candidates (shrinking from the right).
`wRev` is the reversed current candidate and `rest` follows it. -/
def shrinkMonth : List Char → List Char → Option (List Char × Nat)
  | [], _ => none
  | c :: wRev, rest =>
    match matchDeYear rest with
    | some y => some ((c :: wRev).reverse, y)
    | none => shrinkMonth wRev (c :: rest)

/-- After the day group of the Spanish pattern: ` de `, the month word
(`\w+`), ` de `, four year digits. -/
def matchSpanishTail (s : List Char) : Option (List Char × Nat) := do
  let s1 ← matchLitCI " de ".data s
  let w := s1.takeWhile isWordChar
  let rest := s1.dropWhile isWordChar
  if w.isEmpty then none else shrinkMonth w.reverse rest

/-- The pattern `(\d{1,2}) de (\w+) de (\d{4})` applied at one position. -/
def matchSpanishAt (s : List Char) : Option (Nat × List Char × Nat) :=
  (do
    let (d, s1) ← matchDigits 2 s
    let (mo, y) ← matchSpanishTail s1
    pure (d, mo, y))
  <|>
  (do
    let (d, s1) ← matchDigits 1 s
    let (mo, y) ← matchSpanishTail s1
    pure (d, mo, y))

/-- Leftmost match of the Spanish date pattern. -/
def searchSpanish : List Char → Option (Nat × List Char × Nat)
  | [] => none
  | s@(_ :: rest) => matchSpanishAt s <|> searchSpanish rest

/-- The `spanish_months` table. -/
def spanishMonths : List (List Char × Nat) :=
  [("enero".data, 1), ("febrero".data, 2), ("marzo".data, 3),
   ("abril".data, 4), ("mayo".data, 5), ("junio".data, 6),
   ("julio".data, 7), ("agosto".data, 8), ("septiembre".data, 9),
   ("octubre".data, 10), ("noviembre".data, 11), ("diciembre".data, 12)]

def lookupMonth (w : List Char) : Option Nat :=
  (spanishMonths.find? (fun p => decide (p.1 = lowerList w))).map (fun p => p.2)

/-- The fallback pattern `20\d{2}` applied at one position. -/
def match20At : List Char → Option Nat
  | '2' :: '0' :: c :: d :: _ =>
    if isAsciiDigit c && isAsciiDigit d then
      some (2000 + 10 * (c.toNat - '0'.toNat) + (d.toNat - '0'.toNat))
    else none
  | _ => none

/-- Leftmost match of the fallback year pattern `20\d{2}`. -/
def searchYear20 : List Char → Option Nat
  | [] => none
  | s@(_ :: rest) => match20At s <|> searchYear20 rest

/-- `CEEScraper._parse_event_date`: strip the text, try the three patterns
in order (a regex match whose date is invalid falls through to the next
pattern), then fall back to the first `20\d{2}` substring as January 1 of
that year, and finally to no date at all. -/
def parse_event_date (date_text : List Char) : Option PyDate :=
  let t := pyStrip date_text
  let step1 : Option PyDate :=
    match searchMDY t with
    | some (m, d, y) => mkValidDate y m d
    | none => none
  let step2 : Option PyDate :=
    match searchISO t with
    | some (y, m, d) => mkValidDate y m d
    | none => none
  let step3 : Option PyDate :=
    match searchSpanish t with
    | some (d, mo, y) =>
      match lookupMonth mo with
      | some m => mkValidDate y m d
      | none => none
    | none => none
  let fallback : Option PyDate := (searchYear20 t).map (fun y => ⟨y, 1, 1⟩)
  step1 <|> step2 <|> step3 <|> fallback

/-! ## schema.py : VoteResult, ContestResult, calculate_totals -/

/-- `VoteResult` from schema.py.  `percentage` is an exact rational here
(Python stores a float produced by true division). -/
structure VoteResult where
  candidate_name : List Char
  party : Option (List Char)
  votes : Nat
  percentage : Option ℚ := none
deriving DecidableEq, Repr

/-- `ContestResult` from schema.py (the fields `calculate_totals` touches
or reads, plus identity). -/
structure ContestResult where
  office : List Char
  results : List VoteResult := []
  total_votes : Nat := 0
  blank_votes : Nat := 0
  null_votes : Nat := 0
deriving DecidableEq, Repr

/-- `ContestResult.calculate_totals`: recompute `total_votes` as the sum of
the individual vote counts plus blank and null votes, then, when the new
total is positive, back-fill every percentage as votes / total * 100. -/
def calculate_totals (c : ContestResult) : ContestResult :=
  let total := (c.results.map (fun r => r.votes)).sum + c.blank_votes + c.null_votes
  { c with
    total_votes := total
    results :=
      if 0 < total then
        c.results.map (fun r =>
          { r with percentage := some ((r.votes : ℚ) / (total : ℚ) * 100) })
      else c.results }

/-! ## schema.py : ScrapedPage and cee_scraper.py : _fetch_page -/

/-- `ScrapedPage` from schema.py. -/
structure ScrapedPage where
  url : List Char
  scraped_at : List Char
  status_code : Nat
  content_hash : List Char
  raw_html : Option (List Char) := none
  error : Option (List Char) := none
deriving DecidableEq, Repr

/-- The `ScrapedPage.__post_init__` validation: the URL must be non-empty
and the status code must lie in 100..599; otherwise `ValueError` is raised,
modelled as `Except.error` with the Python message. -/
def mkScrapedPage (page : ScrapedPage) : Except (List Char) ScrapedPage :=
  if page.url.isEmpty then
    Except.error "URL cannot be empty".data
  else if page.status_code < 100 ∨ 600 ≤ page.status_code then
    Except.error ("Invalid HTTP status code: ".data ++ natToChars page.status_code)
  else
    Except.ok page

/-- The two ways one HTTP attempt can end, as seen by `_fetch_page`: a
response object (any status), or a `requests.RequestException` carrying a
message. -/
inductive FetchOutcome where
  | response (status : Nat) (body : List Char)
  | transportFailure (message : List Char)
deriving DecidableEq, Repr

/-- `requests.Response.ok`: status below 400. -/
def responseOk (status : Nat) : Bool := status < 400

/-- `CEEScraper._fetch_page`, parametric in the hash function (MD5 hex) and
in the clock reading.  On a response it builds a page with the computed
content hash and a synthetic HTTP error string for non-ok statuses; on a
transport failure it builds a page with status 0, empty hash and the failure
message.  Either constructed page passes through the `ScrapedPage`
validation. -/
def fetch_page (md5hex : List Char → List Char) (url scrapedAt : List Char)
    (outcome : FetchOutcome) : Except (List Char) ScrapedPage :=
  match outcome with
  | .response status body =>
      mkScrapedPage
        { url := url, scraped_at := scrapedAt, status_code := status,
          content_hash := md5hex body, raw_html := some body,
          error := if responseOk status then none
                   else some ("HTTP ".data ++ natToChars status) }
  | .transportFailure msg =>
      mkScrapedPage
        { url := url, scraped_at := scrapedAt, status_code := 0,
          content_hash := [], error := some msg }

/-! ## cee_scraper.py : scrape_events_list deduplication -/

/-- An event descriptor as produced by the four discovery heuristics (the
fields the deduplication step reads). -/
structure EventDesc where
  name : List Char
  results_url : Option (List Char)
deriving DecidableEq, Repr

def descKey (e : EventDesc) : List Char × Option (List Char) :=
  (e.name, e.results_url)

/-- The deduplication loop at the end of `scrape_events_list`: keep an event
when its (name, results_url) key is unseen and its name is truthy, recording
the key. -/
def dedupEventsAux (seen : List (List Char × Option (List Char))) :
    List EventDesc → List EventDesc
  | [] => []
  | e :: rest =>
    if descKey e ∉ seen ∧ ¬e.name.isEmpty then
      e :: dedupEventsAux (descKey e :: seen) rest
    else
      dedupEventsAux seen rest

def dedup_events (events : List EventDesc) : List EventDesc :=
  dedupEventsAux [] events

/-- Modelled from the spec sentence on deduplication: keep exactly the first
occurrence of each (name, results_url) pair, preserving insertion order. -/
def keepFirst : List EventDesc → List EventDesc
  | [] => []
  | e :: rest =>
    e :: keepFirst (rest.filter (fun x => descKey x ≠ descKey e))
termination_by l => l.length
decreasing_by
  simp only [List.length_cons]
  exact Nat.lt_succ_of_le (List.length_filter_le _ _)

/-! ## cee_scraper.py : run -/

/-- A minimal `ElectoralEvent` as assembled by `scrape_event_results` (the
fields the run summary reads). -/
structure ElectoralEvent where
  event_id : List Char
  name : List Char
  event_type : String
  event_date : PyDate
  contests : List ContestResult := []
deriving DecidableEq, Repr

/-- What one iteration of the extraction loop observes for one event:
`scrape_event_results` returned an event, returned None, or raised an
exception that the loop catches. -/
inductive ExtractOutcome where
  | extracted (ev : ElectoralEvent)
  | skipped
  | raised (message : List Char)
deriving DecidableEq, Repr

def extractSucceeded : ExtractOutcome → Bool
  | .extracted _ => true
  | _ => false

/-- The slice `events[:n]` for an `int` bound `n` (negative bounds drop from
the end, as in Python). -/
def pySliceTo (n : Int) (l : List EventDesc) : List EventDesc :=
  if n < 0 then l.take (l.length - n.natAbs) else l.take n.toNat

/-- The `max_events` truncation in `run`: `if self.max_events: events =
events[:self.max_events]` — applied only when the setting is truthy, i.e.
present and non-zero. -/
def truncateEvents (max_events : Option Int) (events : List EventDesc) :
    List EventDesc :=
  match max_events with
  | none => events
  | some n => if n ≠ 0 then pySliceTo n events else events

/-- The run-level summary written to scraping_summary.json (the counts). -/
structure RunSummary where
  total_events_found : Nat
  events_processed : Nat
deriving DecidableEq, Repr

/-- The observable outcome of `CEEScraper.run`: the truncated event list the
loop iterates over, the successfully extracted events, and the summary —
`none` meaning scraping_summary.json was never written. -/
structure RunResult where
  attempted : List EventDesc
  processed : List ElectoralEvent
  summary : Option RunSummary
deriving DecidableEq, Repr

/-- `CEEScraper.run`, with discovery and per-event extraction abstracted as
inputs: if discovery yields no events the run returns the empty list at once
(writing no summary); otherwise it truncates by `max_events`, collects the
events whose extraction succeeded (exceptions and None results are skipped),
and writes the summary with the post-truncation count. -/
def run (discovered : List EventDesc) (extract : EventDesc → ExtractOutcome)
    (max_events : Option Int) : RunResult :=
  if discovered.isEmpty then
    { attempted := [], processed := [], summary := none }
  else
    let events := truncateEvents max_events discovered
    let processed := events.filterMap (fun e =>
      match extract e with
      | .extracted ev => some ev
      | _ => none)
    { attempted := events, processed := processed,
      summary := some
        { total_events_found := events.length,
          events_processed := processed.length } }

/-! ## Helper lemmas -/

theorem votes_map_percentage (l : List VoteResult) (f : VoteResult → Option ℚ) :
    (l.map (fun r => ({ r with percentage := f r } : VoteResult))).map
        (fun r => r.votes) = l.map (fun r => r.votes) := by
  simp [List.map_map]

/-! ## Claim theorems -/

/-- C9: `validate_municipality_code` returns true exactly for the non-empty
all-digit strings whose numeric value lies between 1 and 78, and in
particular rejects "0", "79", "abc" and the empty string. -/
theorem C9_validate_municipality_code :
    (∀ code : List Char,
      validate_municipality_code code = true ↔
        (code ≠ [] ∧ code.all isAsciiDigit = true ∧
          1 ≤ digitsVal code ∧ digitsVal code ≤ 78)) ∧
    validate_municipality_code "0".data = false ∧
    validate_municipality_code "79".data = false ∧
    validate_municipality_code "abc".data = false ∧
    validate_municipality_code [] = false := by
  refine ⟨fun code => ?_, by decide, by decide, by decide, by decide⟩
  rcases code with _ | ⟨c, t⟩
  · simp [validate_municipality_code]
  · by_cases hd : (c :: t).all isAsciiDigit
    · simp [validate_municipality_code, pyIsDigitStr, hd]
    · simp [validate_municipality_code, pyIsDigitStr, hd]

/-- C1 (code bug): on a transport failure the except-branch of `_fetch_page`
builds a `ScrapedPage` with status code 0, which the `ScrapedPage`
validation rejects, so `_fetch_page` raises `ValueError` to its caller
instead of returning the error page the claim describes. -/
theorem C1_fetch_page_transport_failure_raises
    (md5hex : List Char → List Char) (url scrapedAt msg : List Char) :
    fetch_page md5hex url scrapedAt (FetchOutcome.transportFailure msg) =
      Except.error (if url.isEmpty then "URL cannot be empty".data
        else "Invalid HTTP status code: 0".data) := by
  have h0 : ("Invalid HTTP status code: ".data ++ natToChars 0) =
      "Invalid HTTP status code: 0".data := by decide
  by_cases hu : url.isEmpty
  · simp [fetch_page, mkScrapedPage, hu]
  · simp [fetch_page, mkScrapedPage, hu, h0]

/-- C10: a `max_events` of 0 (like None) is falsy, so `run` applies no
truncation at all: the loop iterates over every discovered event. -/
theorem C10_zero_cap_means_no_truncation :
    (∀ l : List EventDesc, truncateEvents (some 0) l = l) ∧
    (∀ l : List EventDesc, truncateEvents none l = l) ∧
    (∀ (d : List EventDesc) (ex : EventDesc → ExtractOutcome),
      (run d ex (some 0)).attempted = d ∧ (run d ex none).attempted = d) := by
  refine ⟨fun l => rfl, fun l => rfl, fun d ex => ?_⟩
  by_cases hd : d.isEmpty
  · simp [run, hd, List.isEmpty_iff.mp hd]
  · simp [run, hd, truncateEvents]

/-- C3 counterexample: the text "Elecciones 1996" matches none of the three
date patterns and contains the 4-digit token 1996 beginning with 19, so the
claim demands January 1 1996; the code only searches for `20\d{2}` in the
fallback and returns no date. -/
theorem C3_counterexample_year_1996 :
    searchMDY (pyStrip "Elecciones 1996".data) = none ∧
    searchISO (pyStrip "Elecciones 1996".data) = none ∧
    searchSpanish (pyStrip "Elecciones 1996".data) = none ∧
    containsSub "1996".data "Elecciones 1996".data = true ∧
    parse_event_date "Elecciones 1996".data = none := by decide

/-- C3 (amended): when none of the three date patterns matches, the
classifier returns January 1 of the year given by the first `20\d{2}`
substring — only years beginning with 20, not 19 — and returns no date when
no such substring exists. -/
theorem C3_fallback_amended (text : List Char)
    (h1 : searchMDY (pyStrip text) = none)
    (h2 : searchISO (pyStrip text) = none)
    (h3 : searchSpanish (pyStrip text) = none) :
    parse_event_date text =
      (searchYear20 (pyStrip text)).map (fun y => PyDate.mk y 1 1) := by
  simp [parse_event_date, h1, h2, h3]

theorem C3_fallback_amended_witness :
    searchMDY (pyStrip "Elecciones 2024".data) = none ∧
    searchISO (pyStrip "Elecciones 2024".data) = none ∧
    searchSpanish (pyStrip "Elecciones 2024".data) = none ∧
    parse_event_date "Elecciones 2024".data =
      (searchYear20 (pyStrip "Elecciones 2024".data)).map
        (fun y => PyDate.mk y 1 1) :=
  ⟨by decide, by decide, by decide,
    C3_fallback_amended "Elecciones 2024".data (by decide) (by decide)
      (by decide)⟩

/-- C4: after `calculate_totals`, the total is the sum of the individual
vote counts plus blank and null votes, and when that total is positive every
result carries the percentage votes / total * 100. -/
theorem C4_calculate_totals_sum_and_percentages (c : ContestResult) :
    (calculate_totals c).total_votes =
      ((calculate_totals c).results.map (fun r => r.votes)).sum
        + (calculate_totals c).blank_votes + (calculate_totals c).null_votes ∧
    (0 < (calculate_totals c).total_votes →
      ∀ r ∈ (calculate_totals c).results,
        r.percentage =
          some ((r.votes : ℚ) / ((calculate_totals c).total_votes : ℚ) * 100)) := by
  constructor
  · by_cases hpos :
        0 < (c.results.map (fun r => r.votes)).sum + c.blank_votes + c.null_votes
    · simp only [calculate_totals, if_pos hpos, votes_map_percentage]
    · simp only [calculate_totals, if_neg hpos]
  · intro hpos r hr
    simp only [calculate_totals] at hr hpos ⊢
    rw [if_pos hpos] at hr
    obtain ⟨r0, _, rfl⟩ := List.mem_map.mp hr
    rfl

theorem C4_calculate_totals_witness :
    0 < (calculate_totals
      { office := "Gobernador".data,
        results := [{ candidate_name := "PNP".data, party := none, votes := 500000 },
                    { candidate_name := "PIP".data, party := none, votes := 450000 }] }).total_votes ∧
    ∀ r ∈ (calculate_totals
      { office := "Gobernador".data,
        results := [{ candidate_name := "PNP".data, party := none, votes := 500000 },
                    { candidate_name := "PIP".data, party := none, votes := 450000 }] }).results,
      r.percentage =
        some ((r.votes : ℚ) / ((calculate_totals
          { office := "Gobernador".data,
            results := [{ candidate_name := "PNP".data, party := none, votes := 500000 },
                        { candidate_name := "PIP".data, party := none, votes := 450000 }] }).total_votes : ℚ) * 100) :=
  ⟨by decide,
    (C4_calculate_totals_sum_and_percentages _).2 (by decide)⟩

/-- C6: `calculate_totals` is idempotent — a second invocation reproduces
the same total and the same percentages (indeed the same contest value). -/
theorem C6_calculate_totals_idempotent (c : ContestResult) :
    calculate_totals (calculate_totals c) = calculate_totals c := by
  by_cases hpos :
      0 < (c.results.map (fun r => r.votes)).sum + c.blank_votes + c.null_votes
  · simp only [calculate_totals, votes_map_percentage, if_pos hpos]
    congr 1
    rw [List.map_map]
    exact List.map_congr_left fun r _ => rfl
  · simp only [calculate_totals, if_neg hpos]

/-- An extraction stand-in under which every event fails (the loop catches
the exception and continues). -/
def noExtract : EventDesc → ExtractOutcome :=
  fun _ => ExtractOutcome.raised "boom".data

/-- C2 counterexample: when discovery yields zero events, `run` returns the
empty list immediately and never writes scraping_summary.json (summary is
`none`), while the claim requires a summary reporting zero processed
events. -/
theorem C2_counterexample_empty_discovery :
    run [] noExtract none =
      { attempted := [], processed := [], summary := none } := rfl

/-- C2 (amended): whenever discovery yields at least one event the run
completes and writes the summary — even if every event fails extraction, in
which case zero processed events are reported; with zero discovered events
the run returns the empty list without writing a summary. -/
theorem C2_run_summary_amended (d : List EventDesc)
    (ex : EventDesc → ExtractOutcome) (m : Option Int) (hd : d ≠ []) :
    (run d ex m).summary =
      some { total_events_found := (truncateEvents m d).length,
             events_processed := (run d ex m).processed.length } ∧
    ((∀ e ∈ truncateEvents m d, extractSucceeded (ex e) = false) →
      (run d ex m).processed = [] ∧
      (run d ex m).summary =
        some { total_events_found := (truncateEvents m d).length,
               events_processed := 0 }) ∧
    (∀ (exe : EventDesc → ExtractOutcome) (me : Option Int),
      run [] exe me = { attempted := [], processed := [], summary := none }) := by
  have hde : d.isEmpty = false := by
    cases d with
    | nil => exact absurd rfl hd
    | cons a t => rfl
  refine ⟨?_, ?_, fun exe me => rfl⟩
  · simp [run, hde]
  · intro hfail
    have hnil : (truncateEvents m d).filterMap (fun e =>
        match ex e with
        | .extracted ev => some ev
        | _ => none) = [] := by
      rw [List.filterMap_eq_nil_iff]
      intro e he
      cases hex : ex e with
      | extracted ev =>
        have := hfail e he
        rw [hex] at this
        exact absurd this (by simp [extractSucceeded])
      | skipped => rfl
      | raised msg => rfl
    constructor
    · simp [run, hde, hnil]
    · simp [run, hde, hnil]

theorem C2_run_summary_amended_witness :
    ([{ name := "A".data, results_url := none }] : List EventDesc) ≠ [] ∧
    (∀ e ∈ truncateEvents none
        [({ name := "A".data, results_url := none } : EventDesc)],
      extractSucceeded (noExtract e) = false) ∧
    (run [{ name := "A".data, results_url := none }] noExtract none).summary =
      some { total_events_found := 1, events_processed := 0 } := by
  refine ⟨by decide, by decide, ?_⟩
  exact ((C2_run_summary_amended
    [{ name := "A".data, results_url := none }] noExtract none
    (by decide)).2.1 (by decide)).2

/-- Generalized invariant for the deduplication loop: with `seen` already
recorded, the loop keeps the first occurrence of each key not yet seen. -/
theorem dedupEventsAux_eq_keepFirst (l : List EventDesc) :
    ∀ seen : List (List Char × Option (List Char)),
      (∀ e ∈ l, ¬e.name.isEmpty) →
      dedupEventsAux seen l =
        keepFirst (l.filter (fun e => decide (descKey e ∉ seen))) := by
  induction l with
  | nil => intro seen _; simp [dedupEventsAux, keepFirst]
  | cons e rest ih =>
    intro seen hnames
    by_cases hseen : descKey e ∈ seen
    · rw [dedupEventsAux, if_neg (fun h => h.1 hseen),
        List.filter_cons_of_neg (by simpa using hseen)]
      exact ih seen fun x hx => hnames x (List.mem_cons_of_mem _ hx)
    · have hname : ¬e.name.isEmpty := hnames e (List.mem_cons_self _ _)
      rw [dedupEventsAux, if_pos ⟨hseen, hname⟩,
        List.filter_cons_of_pos (by simpa using hseen), keepFirst,
        ih (descKey e :: seen) (fun x hx => hnames x (List.mem_cons_of_mem _ hx)),
        List.filter_filter]
      refine congrArg (fun l => e :: keepFirst l) (List.filter_congr ?_)
      intro x _
      by_cases h1 : descKey x = descKey e
      · simp [h1, hseen]
      · by_cases h2 : descKey x ∈ seen <;> simp [h1, h2]

/-- C8: on descriptor lists whose names are all non-empty (which all four
discovery heuristics guarantee), the deduplication keeps exactly the first
occurrence of each (name, results_url) key, in insertion order. -/
theorem C8_dedup_keeps_first_occurrence (l : List EventDesc)
    (h : ∀ e ∈ l, ¬e.name.isEmpty) :
    dedup_events l = keepFirst l := by
  rw [dedup_events, dedupEventsAux_eq_keepFirst l [] h]
  congr 1
  simp

theorem C8_dedup_keeps_first_occurrence_witness :
    (∀ e ∈ ([{ name := "Elecciones Generales 2024".data,
               results_url := some "u".data },
             { name := "Plebiscito 2020".data, results_url := none },
             { name := "Elecciones Generales 2024".data,
               results_url := some "u".data }] : List EventDesc),
      ¬e.name.isEmpty) ∧
    dedup_events
      [{ name := "Elecciones Generales 2024".data, results_url := some "u".data },
       { name := "Plebiscito 2020".data, results_url := none },
       { name := "Elecciones Generales 2024".data, results_url := some "u".data }] =
    keepFirst
      [{ name := "Elecciones Generales 2024".data, results_url := some "u".data },
       { name := "Plebiscito 2020".data, results_url := none },
       { name := "Elecciones Generales 2024".data, results_url := some "u".data }] :=
  ⟨by decide, C8_dedup_keeps_first_occurrence _ (by decide)⟩

/-- C7: the event-type classifier returns the first type in the priority
order plebiscite, primary, special, referendum whose bilingual keyword
occurs case-insensitively in the name, defaulting to general; in particular
a name with both "primaria" and "especial" classifies as primary. -/
theorem C7_event_type_priority_order :
    (∀ name : List Char, determine_event_type name = spec_event_type name) ∧
    determine_event_type "Primaria Especial 2024".data = "primary" := by
  refine ⟨fun name => ?_, by decide⟩
  unfold determine_event_type spec_event_type eventKeywordTable
  simp only [List.any_cons, List.any_nil, Bool.or_false]
  by_cases c1 : containsSub "plebiscito".data (lowerList name) = true <;>
  by_cases c2 : containsSub "plebiscite".data (lowerList name) = true <;>
  by_cases c3 : containsSub "primaria".data (lowerList name) = true <;>
  by_cases c4 : containsSub "primary".data (lowerList name) = true <;>
  by_cases c5 : containsSub "especial".data (lowerList name) = true <;>
  by_cases c6 : containsSub "special".data (lowerList name) = true <;>
  by_cases c7 : containsSub "referendum".data (lowerList name) = true <;>
  by_cases c8 : containsSub "referéndum".data (lowerList name) = true <;>
  simp_all [List.find?]

/-! ## Lemmas relating strip/collapse to word splitting (for C5) -/

theorem stripRight_eq_nil_iff (u : List Char) :
    stripRight u = [] ↔ u.all pyIsSpace = true := by
  induction u with
  | nil => simp [stripRight]
  | cons c t ih =>
    rw [stripRight]
    by_cases hc : pyIsSpace c
    · by_cases ht : stripRight t = []
      · simp [hc, ht, ih.mp ht]
      · have hna : t.all pyIsSpace = false := by
          cases h : t.all pyIsSpace with
          | false => rfl
          | true => exact absurd (ih.mpr h) ht
        simp [hc, ht, hna]
    · simp [hc]

theorem stripRight_cons_of_nonspace (c : Char) (t : List Char)
    (hc : ¬pyIsSpace c) : stripRight (c :: t) = c :: stripRight t := by
  rw [stripRight, if_neg (fun h => hc h.1)]

theorem dropWs_stripRight_comm (u : List Char) :
    dropWs (stripRight u) = stripRight (dropWs u) := by
  induction u with
  | nil => rfl
  | cons c t ih =>
    by_cases hc : pyIsSpace c
    · by_cases ht : stripRight t = []
      · rw [stripRight, if_pos ⟨hc, ht⟩]
        have hall : t.all pyIsSpace = true := (stripRight_eq_nil_iff t).mp ht
        have hdrop : dropWs t = [] := by
          rw [dropWs, List.dropWhile_eq_nil_iff]
          exact fun a ha => List.all_eq_true.mp hall a ha
        rw [show dropWs (c :: t) = dropWs t from List.dropWhile_cons_of_pos hc,
          hdrop]
        rfl
      · rw [stripRight, if_neg (fun h => ht h.2),
          show dropWs (c :: stripRight t) = dropWs (stripRight t) from
            List.dropWhile_cons_of_pos hc,
          show dropWs (c :: t) = dropWs t from List.dropWhile_cons_of_pos hc]
        exact ih
    · rw [stripRight_cons_of_nonspace c t hc,
        show dropWs (c :: stripRight t) = c :: stripRight t from
          List.dropWhile_cons_of_neg hc,
        show dropWs (c :: t) = c :: t from List.dropWhile_cons_of_neg hc,
        stripRight_cons_of_nonspace c t hc]

theorem wordsWsAux_ne_nil (u : List Char) :
    ∀ cur : List Char, cur ≠ [] → wordsWsAux cur u ≠ [] := by
  induction u with
  | nil =>
    intro cur hc
    have hce : cur.isEmpty = false := by
      cases cur with
      | nil => exact absurd rfl hc
      | cons a b => rfl
    simp [wordsWsAux, hce]
  | cons c t ih =>
    intro cur hc
    have hce : cur.isEmpty = false := by
      cases cur with
      | nil => exact absurd rfl hc
      | cons a b => rfl
    rw [wordsWsAux]
    by_cases hw : pyIsSpace c
    · simp [hw, hce]
    · simpa [hw] using ih (c :: cur) (List.cons_ne_nil c cur)

theorem wordsWs_nil_iff (u : List Char) :
    wordsWsAux [] u = [] ↔ u.all pyIsSpace = true := by
  induction u with
  | nil => simp [wordsWsAux]
  | cons c t ih =>
    rw [wordsWsAux]
    by_cases hw : pyIsSpace c
    · simpa [hw] using ih
    · simp [hw, wordsWsAux_ne_nil t [c] (List.cons_ne_nil c [])]

theorem collapseWs_true_dropWs (r : List Char) :
    collapseWsAux true r = collapseWsAux false (dropWs r) := by
  induction r with
  | nil => rfl
  | cons c t ih =>
    by_cases hc : pyIsSpace c
    · rw [collapseWsAux, if_pos hc,
        show dropWs (c :: t) = dropWs t from List.dropWhile_cons_of_pos hc]
      simpa using ih
    · rw [collapseWsAux, if_neg hc,
        show dropWs (c :: t) = c :: t from List.dropWhile_cons_of_neg hc,
        collapseWsAux, if_neg hc]

theorem hyphenJoin_cons_of_ne_nil (w : List Char) (ws : List (List Char))
    (h : ws ≠ []) : hyphenJoin (w :: ws) = w ++ '-' :: hyphenJoin ws := by
  cases ws with
  | nil => exact absurd rfl h
  | cons a r => rfl

/-- Joint invariant: joining the words of `l` with hyphens equals stripping
and collapsing `l`; with a word in progress (`cur`, reversed, non-empty),
the remainder is right-stripped only. -/
theorem words_eq_collapse_strip (l : List Char) :
    (∀ cur : List Char, cur ≠ [] →
      hyphenJoin (wordsWsAux cur l) =
        cur.reverse ++ collapseWsAux false (stripRight l)) ∧
    hyphenJoin (wordsWsAux [] l) = collapseWsAux false (pyStrip l) := by
  induction l with
  | nil =>
    constructor
    · intro cur hc
      have hce : cur.isEmpty = false := by
        cases cur with
        | nil => exact absurd rfl hc
        | cons a b => rfl
      simp [wordsWsAux, hce, hyphenJoin, stripRight, collapseWsAux]
    · rfl
  | cons c t ih =>
    obtain ⟨ih1, ih2⟩ := ih
    have key : ∀ cur : List Char, cur ≠ [] → pyIsSpace c = true →
        hyphenJoin (cur.reverse :: wordsWsAux [] t) =
          cur.reverse ++ collapseWsAux false (stripRight (c :: t)) := by
      intro cur hc hw
      by_cases ht : stripRight t = []
      · have hall : t.all pyIsSpace = true := (stripRight_eq_nil_iff t).mp ht
        have hwnil : wordsWsAux [] t = [] := (wordsWs_nil_iff t).mpr hall
        rw [stripRight, if_pos ⟨hw, ht⟩, hwnil]
        simp [hyphenJoin, collapseWsAux]
      · have hwne : wordsWsAux [] t ≠ [] := by
          rw [Ne, wordsWs_nil_iff]
          exact fun hh => ht ((stripRight_eq_nil_iff t).mpr hh)
        rw [stripRight, if_neg (fun h => ht h.2), collapseWsAux, if_pos hw,
          hyphenJoin_cons_of_ne_nil _ _ hwne, ih2, collapseWs_true_dropWs,
          dropWs_stripRight_comm]
        simp [pyStrip]
    constructor
    · intro cur hc
      have hce : cur.isEmpty = false := by
        cases cur with
        | nil => exact absurd rfl hc
        | cons a b => rfl
      rw [wordsWsAux]
      by_cases hw : pyIsSpace c
      · rw [if_pos hw, hce]
        simpa using key cur hc hw
      · rw [if_neg hw, ih1 (c :: cur) (List.cons_ne_nil c cur),
          stripRight_cons_of_nonspace c t hw, collapseWsAux, if_neg hw]
        simp
    · rw [wordsWsAux]
      by_cases hw : pyIsSpace c
      · rw [if_pos hw]
        have hps : pyStrip (c :: t) = pyStrip t := by
          rw [pyStrip, show dropWs (c :: t) = dropWs t from
            List.dropWhile_cons_of_pos hw]
          rfl
        simpa [hps] using ih2
      · rw [if_neg hw]
        have hps : pyStrip (c :: t) = c :: stripRight t := by
          rw [pyStrip, show dropWs (c :: t) = c :: t from
            List.dropWhile_cons_of_neg hw, stripRight_cons_of_nonspace c t hw]
        rw [hps, collapseWsAux, if_neg hw]
        simpa using ih1 [c] (List.cons_ne_nil c [])

/-- C5: event-ID generation computes exactly the spec pipeline — lowercase,
strip the characters outside a-z, 0-9, whitespace and hyphen, join the
whitespace-separated words with single hyphens, append a hyphen and the
ISO-8601 date — and sends the name "General Elections 2024!" with date
2024-11-05 to "general-elections-2024-2024-11-05".  It is a pure function,
so determinism in (name, date) is immediate. -/
theorem C5_generate_event_id_exact :
    (∀ (name : List Char) (d : PyDate),
      generate_event_id name d = spec_event_id name d) ∧
    generate_event_id "General Elections 2024!".data ⟨2024, 11, 5⟩ =
      "general-elections-2024-2024-11-05".data := by
  refine ⟨fun name d => ?_, by decide⟩
  unfold generate_event_id spec_event_id
  rw [(words_eq_collapse_strip ((lowerList name).filter slugKeep)).2]

end PRElections
